import Mathlib

/-!
Verification development for the `partitionresizer` repository.

The Go sources are shallowly embedded as Lean definitions: machine
integers (`int64`, `int`) become `Int`, Go slices become `List`, Go's
`map[K]bool` sets become membership in a `List`, and fallible functions
return `Except`/`Option`.  Each definition's doc comment names the Go
source it embeds.
-/

deriving instance DecidableEq for Except

namespace PartitionResizer

/-- Embeds Go struct `usableBlock` (calculate.go).  All values are bytes.
The field `stop` embeds the Go field `end` (a Lean keyword). -/
structure usableBlock where
  start : Int
  stop : Int
  size : Int
deriving DecidableEq, Repr

/-- Embeds Go struct `partitionData` (identifier.go).  `stop` embeds `end`. -/
structure partitionData where
  name : String := ""
  label : String := ""
  size : Int := 0
  start : Int := 0
  stop : Int := 0
  number : Int := 0
  uuid : String := ""
deriving DecidableEq, Repr

/-- Embeds Go struct `partitionResizeTarget` (identifier.go). -/
structure partitionResizeTarget where
  original : partitionData
  target : partitionData
deriving DecidableEq, Repr

/-- Model of a `*gpt.Partition` row as used by this repository:
`start` and `size` are the byte values returned by `GetStart()` and
`GetSize()`, `index` is the 1-based GPT slot stored in the `Index` field,
and `name`/`guid`/`ptype`/`attributes` model `Name`/`GUID`/`Type`/`Attributes`. -/
structure gptPartition where
  index : Int
  start : Int
  size : Int
  name : String := ""
  guid : String := ""
  ptype : String := ""
  attributes : Int := 0
deriving DecidableEq, Repr

/-- Embeds `InsufficientSpaceError` (errors.go). -/
structure InsufficientSpaceError where
  partition : String
  requested : Int
deriving DecidableEq, Repr

/-- A byte `x` lies in one of the inclusive blocks of `bs`. -/
def memBlocks (bs : List usableBlock) (x : Int) : Prop :=
  ∃ b ∈ bs, b.start ≤ x ∧ x ≤ b.stop

instance (bs : List usableBlock) (x : Int) : Decidable (memBlocks bs x) := by
  unfold memBlocks; infer_instance

/-- The loop of `computeUnused` (calculate.go lines 96–107 and 110–115),
with the running `prevEnd` made explicit. -/
def computeUnusedLoop (size : Int) (prevEnd : Int) : List usableBlock → List usableBlock
  | [] => if prevEnd < size - 1 then [⟨prevEnd + 1, size - 1, 0⟩] else []
  | u :: rest =>
      (if u.start > prevEnd + 1 then [⟨prevEnd + 1, u.start - 1, 0⟩] else [])
        ++ computeUnusedLoop size u.stop rest

/-- Embeds `computeUnused` (calculate.go lines 93–118). -/
def computeUnused (size : Int) (used : List usableBlock) : List usableBlock :=
  computeUnusedLoop size 0 used

/-- Ordering of usable blocks by `start`, as used by the `sort.Slice`
calls in calculate.go. -/
def blockLE (a b : usableBlock) : Prop := a.start ≤ b.start

instance : DecidableRel blockLE := fun a b =>
  inferInstanceAs (Decidable (a.start ≤ b.start))

instance : IsTotal usableBlock blockLE := ⟨fun a b => Int.le_total a.start b.start⟩

instance : IsTrans usableBlock blockLE := ⟨fun _ _ _ h h' => le_trans h h'⟩

/-- The combining loop of `sortAndCombineUsableBlocks`
(calculate.go lines 127–141), carrying the `current` block. -/
def combineLoop (current : usableBlock) : List usableBlock → List usableBlock
  | [] => [current]
  | b :: rest =>
      if current.stop + 1 ≥ b.start then
        combineLoop { current with stop := if b.stop > current.stop then b.stop else current.stop } rest
      else
        current :: combineLoop b rest

/-- Embeds `sortAndCombineUsableBlocks` (calculate.go lines 120–143).
The unspecified `sort.Slice` by `start` is modelled by insertion sort. -/
def sortAndCombineUsableBlocks (blocks : List usableBlock) : List usableBlock :=
  match List.insertionSort blockLE blocks with
  | [] => []
  | c :: rest => combineLoop c rest

/-- The body of the `for pn := 1; ; pn++` search for the lowest free
partition number (calculate.go lines 73–78), with explicit fuel so the
recursion is structural.  Among the `used.length + 1` candidates
`pn, pn+1, …` one must be free, so that much fuel recovers the Go
loop's behaviour exactly (`findLowestNumber_spec` below). -/
def findLowestNumberAux (used : List Int) : Nat → Int → Int
  | 0, pn => pn
  | fuel + 1, pn => if pn ∈ used then findLowestNumberAux used fuel (pn + 1) else pn

/-- Embeds the `for pn := 1; ; pn++` search for the lowest free partition
number (calculate.go lines 73–78).  The Go loop walks a `map[int]bool`;
here the set of used numbers is a list. -/
def findLowestNumber (used : List Int) (pn : Int) : Int :=
  findLowestNumberAux used (used.length + 1) pn

/-- Embeds the inner gap scan of the grow branch of `calculateResizes`
(calculate.go lines 61–83): find the first block whose inclusive length
can hold `sz`, return its start together with the updated unused list
(the block's start advanced by `sz`, the block removed when empty). -/
def allocateInUnused (sz : Int) : List usableBlock → Option (Int × List usableBlock)
  | [] => none
  | u :: rest =>
      if u.stop - u.start + 1 ≥ sz then
        some (u.start,
          if u.start + sz > u.stop then rest
          else { u with start := u.start + sz } :: rest)
      else
        (allocateInUnused sz rest).map fun p => (p.1, u :: p.2)

/-- The request loop of `calculateResizes` (calculate.go lines 43–88),
threading the unused blocks and the set of used partition numbers. -/
def calculateResizesLoop (unused : List usableBlock) (usedNums : List Int) :
    List partitionResizeTarget → Except InsufficientSpaceError (List partitionResizeTarget)
  | [] => .ok []
  | gp :: rest =>
      if gp.target.size < gp.original.size then
        -- shrinking, so just adjust in place
        let tgt := { gp.target with
          start := gp.original.start
          stop := gp.original.start + gp.target.size - 1
          number := gp.original.number }
        let unused' := sortAndCombineUsableBlocks
          (unused ++ [⟨tgt.stop + 1, gp.original.stop, 0⟩])
        (calculateResizesLoop unused' usedNums rest).map
          (fun rs => { gp with target := tgt } :: rs)
      else
        match allocateInUnused gp.target.size unused with
        | none => .error ⟨gp.original.label, gp.target.size⟩
        | some (s, unused') =>
            let num := findLowestNumber usedNums 1
            let tgt := { gp.target with
              start := s
              stop := s + gp.target.size - 1
              number := num }
            (calculateResizesLoop unused' (num :: usedNums) rest).map
              (fun rs => { gp with target := tgt } :: rs)

/-- Embeds `calculateResizes` (calculate.go lines 21–91).  `used` is built
from the partitions' byte ranges and sorted by start; `unused` is its
complement; the used partition numbers are the GPT `Index` values. -/
def calculateResizes (size : Int) (parts : List gptPartition)
    (partitionResizes : List partitionResizeTarget) :
    Except InsufficientSpaceError (List partitionResizeTarget) :=
  let used := List.insertionSort blockLE
    (parts.map fun p => ⟨p.start, p.size + p.start - 1, p.size⟩)
  let unused := computeUnused size used
  let usedNums := parts.map (·.index)
  calculateResizesLoop unused usedNums partitionResizes

/-! ### name.go -/

/-- Embeds the constant `alternateLabelSuffix` (name.go line 6). -/
def alternateLabelSuffix : String := "_resized2"

/-- Embeds `getAlternateLabel` (name.go lines 11–13). -/
def getAlternateLabel (original : String) : String :=
  original ++ alternateLabelSuffix

/-! ### resize.go (the executor: `resize` at lines 187–214 and the step
functions it calls).  GPT commits (`d.Partition`) and external effects
(ext4 shrink, byte copies, filesystem creation) are recorded as events;
the partition table itself is threaded explicitly.  Step-entry markers
(`stepShrinkFilesystems`, …) record the order in which `resize` invokes
its steps. -/

/-- Filesystem kinds distinguished by the executor's dispatch. -/
inductive FsKind
  | squashfs
  | ext4
  | fat32
  | other
deriving DecidableEq, Repr

/-- Observable executor events: step entries, GPT commits
(`d.Partition`), and external effects. -/
inductive ExecEvent
  | stepShrinkFilesystems
  | stepShrinkPartitions
  | stepCreatePartitions
  | stepCopyFilesystems
  | stepSwapIdentity
  | stepRemovePartitions
  | shrinkFS (number : Int)
  | copyRaw (src dst : Int)
  | createFS (dst : Int)
  | copyFS (src dst : Int)
  | commit
deriving DecidableEq, Repr

/-- Go slice indexing `l[i]` with an `Int` index; `none` models the
out-of-range panic. -/
def listGetInt {α : Type} (l : List α) (i : Int) : Option α :=
  if 0 ≤ i then l[i.toNat]? else none

/-- The GPT type GUID value `gpt.Unused`. -/
def gptUnused : String := "unused"

/-- Embeds `shrinkFilesystems` (resize.go lines 334–356): for every
action that shrinks, require an ext4 filesystem on the original
partition and invoke the external shrink (recorded as an event).
`fsType` models `d.GetFilesystem`; `none` models its error. -/
def shrinkFilesystemsGo (fsType : Int → Option FsKind) :
    List partitionResizeTarget → Except String (List ExecEvent)
  | [] => .ok []
  | r :: rest =>
      if r.original.size ≤ r.target.size then
        shrinkFilesystemsGo fsType rest
      else
        match fsType r.original.number with
        | none => .error "failed to get filesystem for shrink partition"
        | some k =>
            if k = FsKind.ext4 then
              (shrinkFilesystemsGo fsType rest).map
                (fun evs => ExecEvent.shrinkFS r.original.number :: evs)
            else .error "unsupported filesystem type for shrinking"

/-- The loop of `shrinkPartitions` (resize.go lines 364–373), counting
how many GPT entries were resized. -/
def shrinkPartitionsLoop (parts : List gptPartition) (count : Nat) :
    List partitionResizeTarget → Option (List gptPartition × Nat)
  | [] => some (parts, count)
  | r :: rest =>
      if r.original.size ≤ r.target.size then
        shrinkPartitionsLoop parts count rest
      else
        match listGetInt parts (r.original.number - 1) with
        | none => none
        | some p =>
            shrinkPartitionsLoop
              (parts.set (r.original.number - 1).toNat { p with size := r.target.size })
              (count + 1) rest

/-- Embeds `shrinkPartitions` (resize.go lines 358–381): set each
shrinking entry's size, then commit once — but only when at least one
entry was resized. -/
def shrinkPartitionsGo (parts : List gptPartition) (resizes : List partitionResizeTarget) :
    Except String (List gptPartition × List ExecEvent) :=
  match shrinkPartitionsLoop parts 0 resizes with
  | none => .error "index out of range"
  | some (parts', count) =>
      .ok (parts', if count = 0 then [] else [ExecEvent.commit])

/-- The loop of `createPartitions` (resize.go lines 227–245), carrying
the growing `partitions` slice.  An action is skipped only when both
size and start are unchanged; otherwise a new entry is appended whose
`Type`, `Name`, `GUID` and `Attributes` are copied from the row at
`original.number - 1` of the current slice, with `Start`/`Size` from the
target (the `Index` field is left at its zero value). -/
def createPartitionsLoop (parts : List gptPartition) :
    List partitionResizeTarget → Except String (List gptPartition)
  | [] => .ok parts
  | r :: rest =>
      if r.original.size = r.target.size ∧ r.original.start = r.target.start then
        createPartitionsLoop parts rest
      else
        match listGetInt parts (r.original.number - 1) with
        | none => .error "index out of range"
        | some orig =>
            createPartitionsLoop
              (parts ++ [{ index := 0, start := r.target.start, size := r.target.size,
                           name := orig.name, guid := orig.guid, ptype := orig.ptype,
                           attributes := orig.attributes }]) rest

/-- Embeds `createPartitions` (resize.go lines 216–252): append the new
entries, then write the updated table (one commit). -/
def createPartitionsGo (parts : List gptPartition) (resizes : List partitionResizeTarget) :
    Except String (List gptPartition × List ExecEvent) :=
  (createPartitionsLoop parts resizes).map (fun p => (p, [ExecEvent.commit]))

/-- Embeds `copyFilesystems` (resize.go lines 254–310): per-action
dispatch on the source filesystem kind.  `none` from `fsType` models the
`UnknownFilesystemError`, which — like squashfs and ext4 — takes the raw
byte-copy path; FAT32 creates a filesystem on the target and tree-copies;
anything else is an error. -/
def copyFilesystemsGo (fsType : Int → Option FsKind) :
    List partitionResizeTarget → Except String (List ExecEvent)
  | [] => .ok []
  | r :: rest =>
      match fsType r.original.number with
      | none =>
          (copyFilesystemsGo fsType rest).map
            (fun evs => ExecEvent.copyRaw r.original.number r.target.number :: evs)
      | some FsKind.squashfs =>
          (copyFilesystemsGo fsType rest).map
            (fun evs => ExecEvent.copyRaw r.original.number r.target.number :: evs)
      | some FsKind.ext4 =>
          (copyFilesystemsGo fsType rest).map
            (fun evs => ExecEvent.copyRaw r.original.number r.target.number :: evs)
      | some FsKind.fat32 =>
          (copyFilesystemsGo fsType rest).map
            (fun evs => ExecEvent.createFS r.target.number
              :: ExecEvent.copyFS r.original.number r.target.number :: evs)
      | some FsKind.other => .error "unsupported filesystem type"

/-- The loop of `removePartitions` (resize.go lines 152–160): mark the
row at `number - 1` with the unused type. -/
def removePartitionsLoop (parts : List gptPartition) :
    List Int → Option (List gptPartition)
  | [] => some parts
  | n :: rest =>
      match listGetInt parts (n - 1) with
      | none => none
      | some p =>
          removePartitionsLoop (parts.set (n - 1).toNat { p with ptype := gptUnused }) rest

/-- Embeds `removePartitions` (resize.go lines 312–332): mark the old
rows unused, then commit once. -/
def removePartitionsGo (parts : List gptPartition) (numbers : List Int) :
    Except String (List gptPartition × List ExecEvent) :=
  match removePartitionsLoop parts numbers with
  | none => .error "index out of range"
  | some parts' => .ok (parts', [ExecEvent.commit])

/-- Embeds `resize` (resize.go lines 187–214): shrink filesystems, shrink
partition entries, create new partitions, copy filesystems, remove old
partitions — in that order, each step's events concatenated behind its
step marker. -/
def resizeGo (parts : List gptPartition) (fsType : Int → Option FsKind)
    (resizes : List partitionResizeTarget) :
    Except String (List gptPartition × List ExecEvent) := do
  let ev1 ← shrinkFilesystemsGo fsType resizes
  let (t2, ev2) ← shrinkPartitionsGo parts resizes
  let (t3, ev3) ← createPartitionsGo t2 resizes
  let ev4 ← copyFilesystemsGo fsType resizes
  let (t5, ev5) ← removePartitionsGo t3 (resizes.map fun r => r.original.number)
  .ok (t5, [ExecEvent.stepShrinkFilesystems] ++ ev1
        ++ [ExecEvent.stepShrinkPartitions] ++ ev2
        ++ [ExecEvent.stepCreatePartitions] ++ ev3
        ++ [ExecEvent.stepCopyFilesystems] ++ ev4
        ++ [ExecEvent.stepRemovePartitions] ++ ev5)

/-! ### identifier.go / convert.go -/

/-- Embeds the `Identifier` string type (identifier.go lines 3–9). -/
inductive Identifier
  | byName
  | byLabel
  | byUUID
deriving DecidableEq, Repr

/-- The string value of an `Identifier` constant. -/
def Identifier.str : Identifier → String
  | .byName => "name"
  | .byLabel => "label"
  | .byUUID => "uuid"

/-- Embeds a `PartitionIdentifier` value (identifier.go): a `By()`
discriminator and a `Value()`. -/
structure PartitionIdentifierS where
  idBy : Identifier
  value : String
deriving DecidableEq, Repr

/-- Embeds a `PartitionChange` value (identifier.go): an identifier plus
a requested `Size()` in bytes. -/
structure PartitionChangeS where
  idBy : Identifier
  value : String
  size : Int
deriving DecidableEq, Repr

/-- The identifier carried by a `PartitionChange`. -/
def PartitionChangeS.toIdentifier (pc : PartitionChangeS) : PartitionIdentifierS :=
  ⟨pc.idBy, pc.value⟩

/-- Lookup in the `namePartMapping` Go map built in
`partitionIdentifiersToData` (convert.go lines 15–18); later entries of
`diskPartitionData` overwrite earlier ones with the same name. -/
def namePartLookup (dpd : List partitionData) (v : String) : Option partitionData :=
  dpd.reverse.find? (fun pd => pd.name == v)

/-- The per-partition match test of `partitionIdentifiersToData`
(convert.go lines 24–39). -/
def identifierMatches (dpd : List partitionData) (pi : PartitionIdentifierS)
    (p : gptPartition) : Bool :=
  match pi.idBy with
  | .byName =>
      match namePartLookup dpd pi.value with
      | some sysPart => sysPart.start == p.start
      | none => false
  | .byLabel => p.name == pi.value
  | .byUUID => p.guid == pi.value

/-- The inner scan of `partitionIdentifiersToData` (convert.go lines
23–51): find the first matching partition and build its `partitionData`,
recording the 0-based scan position `i` as `number`. -/
def findPartitionForIdentifier (dpd : List partitionData) (pi : PartitionIdentifierS) :
    List gptPartition → Nat → Option partitionData
  | [], _ => none
  | p :: rest, i =>
      if identifierMatches dpd pi p then
        some { label := p.name, size := p.size, start := p.start,
               stop := p.start + p.size - 1, number := (i : Int) }
      else findPartitionForIdentifier dpd pi rest (i + 1)

/-- Embeds `partitionIdentifiersToData` (convert.go lines 10–58). -/
def partitionIdentifiersToData (parts : List gptPartition) (dpd : List partitionData) :
    List PartitionIdentifierS → Except String (List partitionData)
  | [] => .ok []
  | pi :: rest =>
      match findPartitionForIdentifier dpd pi parts 0 with
      | none =>
          .error ("could not find partition for identifier: " ++ pi.idBy.str ++ "=" ++ pi.value)
      | some d => (partitionIdentifiersToData parts dpd rest).map (fun ds => d :: ds)

/-- Embeds `partitionChangesToResizeTarget` (convert.go lines 61–83). -/
def partitionChangesToResizeTarget (parts : List gptPartition) (dpd : List partitionData)
    (changes : List PartitionChangeS) : Except String (List partitionResizeTarget) :=
  match partitionIdentifiersToData parts dpd (changes.map PartitionChangeS.toIdentifier) with
  | .error e => .error e
  | .ok updatedData =>
      if updatedData.length ≠ changes.length then
        .error "mismatched partition data and changes lengths"
      else
        .ok ((updatedData.zip changes).map fun dc =>
          { original := dc.1, target := { size := dc.2.size } })

/-! ### run_helpers.go -/

/-- 1 GiB in bytes (the package constant `GB`). -/
def GB : Int := 1024 * 1024 * 1024

/-- Errors surfaced by `planResizes`: either the planner's
`InsufficientSpaceError` or some other error built with `fmt.Errorf`. -/
inductive PlanError
  | insufficientSpace (e : InsufficientSpaceError)
  | generic (msg : String)
deriving DecidableEq, Repr

/-- The error message built by `planResizes` when space is insufficient
and no shrink partition was supplied (run_helpers.go line 125). -/
def noShrinkMsg : String :=
  "insufficient space to perform requested partition grows, and no shrink partition specified"

/-- Embeds `planResizes` (run_helpers.go lines 97–160).  Go's `/` and `%`
truncate toward zero, hence `Int.tdiv`/`Int.tmod`. -/
def planResizes (diskSize : Int) (parts : List gptPartition) (dpd : List partitionData)
    (growPartitions : List PartitionChangeS) (shrinkPartition : Option PartitionIdentifierS) :
    Except PlanError (List partitionResizeTarget) :=
  match partitionChangesToResizeTarget parts dpd growPartitions with
  | .error e => .error (.generic e)
  | .ok prTargets =>
      match calculateResizes diskSize parts prTargets with
      | .ok resizes => .ok resizes
      | .error _ =>
          -- the error from calculateResizes is always an InsufficientSpaceError
          match shrinkPartition with
          | none => .error (.generic noShrinkMsg)
          | some sp =>
              let totalGrow := (prTargets.map fun gp => gp.target.size).sum
              let totalGrow :=
                if Int.tmod totalGrow GB ≠ 0 then (Int.tdiv totalGrow GB + 1) * GB
                else totalGrow
              match partitionIdentifiersToData parts dpd [sp] with
              | .error e => .error (.generic e)
              | .ok shrinkDataList =>
                  match shrinkDataList with
                  | [shrinkData] =>
                      let target := { shrinkData with
                        size := shrinkData.size - totalGrow
                        stop := shrinkData.stop - totalGrow }
                      (calculateResizes diskSize parts
                          ({ original := shrinkData, target := target } :: prTargets)).mapError
                        PlanError.insufficientSpace
                  | _ => .error (.generic "could not find shrink partition data")

/-! ### discover.go (`findDisks`, sysfs branch) -/

/-- The `partitionData` record built for one sysfs partition by
`findDisks` (discover.go lines 162–191): `id`, `sizeSectors` and
`startSectors` are the integers read from the `partition`, `size` and
`start` files, `blockSize` is the disk's logical block size, and the
record's `end` is computed as `(size - start + 1)` sectors. -/
def sysfsPartitionRecord (blockSize id sizeSectors startSectors : Int)
    (name label : String) : partitionData :=
  { name := name, label := label,
    size := sizeSectors * blockSize,
    start := startSectors * blockSize,
    stop := (sizeSectors - startSectors + 1) * blockSize,
    number := id }

/-! ### fastcopy.go -/

/-- The default copy buffer size (fastcopy.go line 11). -/
def copyBufSize : Int := 4 * 1024 * 1024

/-- `WriteAt` on a file modelled as a byte list: positions between the
old end-of-file and `off` read as zero (the hole a sparse write leaves),
`data` overwrites `[off, off + data.length)`, everything else is kept. -/
def writeAt (dst : List Nat) (off : Nat) (data : List Nat) : List Nat :=
  let base := dst ++ List.replicate (off + data.length - dst.length) 0
  base.take off ++ data ++ base.drop (off + data.length)

/-- The copy loop of `CopyRange` (fastcopy.go lines 45–68), with fuel
making the recursion structural: each iteration advances `copied` by at
least one, so `length.toNat` fuel reproduces the Go loop exactly.
`ReadAt` at a negative offset errors (`none`); otherwise it returns
`min toRead (available)` bytes, and a zero read breaks the loop. -/
def copyLoopAux (src : List Nat) (srcOff dstOff length bufLen : Int) :
    Nat → List Nat → Int → Option (List Nat)
  | 0, dst, _ => some dst
  | fuel + 1, dst, copied =>
      if copied < length then
        if srcOff + copied < 0 then none
        else
          let toRead := min bufLen (length - copied)
          let n := min toRead (max ((src.length : Int) - (srcOff + copied)) 0)
          if n ≤ 0 then some dst
          else
            let data := (src.drop (srcOff + copied).toNat).take n.toNat
            copyLoopAux src srcOff dstOff length bufLen fuel
              (writeAt dst (dstOff + copied).toNat data) (copied + n)
      else some dst

/-- Embeds `CopyRange` (fastcopy.go lines 17–71) over byte-list files:
a negative `dstOffset` truncates the destination and writes from 0; a
non-positive `bufsize` selects the default buffer. -/
def CopyRange (src dst : List Nat) (srcOffset dstOffset length bufsize : Int) :
    Option (List Nat) :=
  let dst' := if dstOffset < 0 then [] else dst
  let dstOff := if dstOffset < 0 then 0 else dstOffset
  let bufLen := if bufsize ≤ 0 then copyBufSize else bufsize
  copyLoopAux src srcOffset dstOff length bufLen length.toNat dst' 0

/-! ## Theorems -/

@[simp]
theorem memBlocks_nil (x : Int) : memBlocks [] x ↔ False := by
  simp [memBlocks]

@[simp]
theorem memBlocks_cons (b : usableBlock) (bs : List usableBlock) (x : Int) :
    memBlocks (b :: bs) x ↔ (b.start ≤ x ∧ x ≤ b.stop) ∨ memBlocks bs x := by
  simp [memBlocks]

@[simp]
theorem memBlocks_append (l₁ l₂ : List usableBlock) (x : Int) :
    memBlocks (l₁ ++ l₂) x ↔ memBlocks l₁ x ∨ memBlocks l₂ x := by
  simp [memBlocks, or_and_right, exists_or]

/-- Bounds of the gaps produced by the `computeUnused` loop: every gap
lies strictly above `prevEnd` and inside the disk. -/
theorem computeUnusedLoop_bounds (size : Int) (used : List usableBlock) :
    ∀ (prevEnd : Int),
      used.Pairwise (fun a b => a.stop < b.start) →
      (∀ u ∈ used, prevEnd ≤ u.start ∧ u.start ≤ u.stop ∧ u.stop ≤ size - 1) →
      ∀ g ∈ computeUnusedLoop size prevEnd used,
        prevEnd + 1 ≤ g.start ∧ g.start ≤ g.stop ∧ g.stop ≤ size - 1 := by
  induction used with
  | nil =>
    intro prevEnd _ _ g hg
    simp only [computeUnusedLoop] at hg
    split at hg
    · simp only [List.mem_singleton] at hg
      subst hg
      constructor
      · simp
      · simp only
        omega
    · simp at hg
  | cons u rest ih =>
    intro prevEnd hpw hin g hg
    rw [List.pairwise_cons] at hpw
    have hu := hin u (by simp)
    simp only [computeUnusedLoop, List.mem_append] at hg
    rcases hg with hg | hg
    · split at hg
      · simp only [List.mem_singleton] at hg
        subst hg
        refine ⟨by simp, ?_, ?_⟩ <;> · simp only; omega
      · simp at hg
    · have hrec := ih u.stop hpw.2
        (fun v hv => ⟨le_of_lt (hpw.1 v hv), (hin v (by simp [hv])).2⟩) g hg
      exact ⟨by omega, hrec.2⟩

/-- The gaps produced by the `computeUnused` loop are sorted and
pairwise separated: each ends strictly before the next starts. -/
theorem computeUnusedLoop_pairwise (size : Int) (used : List usableBlock) :
    ∀ (prevEnd : Int),
      used.Pairwise (fun a b => a.stop < b.start) →
      (∀ u ∈ used, prevEnd ≤ u.start ∧ u.start ≤ u.stop ∧ u.stop ≤ size - 1) →
      (computeUnusedLoop size prevEnd used).Pairwise (fun a b => a.stop < b.start) := by
  induction used with
  | nil =>
    intro prevEnd _ _
    simp only [computeUnusedLoop]
    split <;> simp
  | cons u rest ih =>
    intro prevEnd hpw hin
    rw [List.pairwise_cons] at hpw
    have hu := hin u (by simp)
    have hinrest : ∀ v ∈ rest, u.stop ≤ v.start ∧ v.start ≤ v.stop ∧ v.stop ≤ size - 1 :=
      fun v hv => ⟨le_of_lt (hpw.1 v hv), (hin v (by simp [hv])).2⟩
    have hrec := ih u.stop hpw.2 hinrest
    have hbnd := computeUnusedLoop_bounds size rest u.stop hpw.2 hinrest
    simp only [computeUnusedLoop]
    rw [List.pairwise_append]
    refine ⟨?_, hrec, ?_⟩
    · split <;> simp
    · intro a ha b hb
      split at ha
      · simp only [List.mem_singleton] at ha
        subst ha
        have := hbnd b hb
        simp only
        omega
      · simp at ha

/-- Membership characterisation of the `computeUnused` loop: it covers
exactly the bytes of `[prevEnd + 1, size − 1]` not covered by `used`. -/
theorem computeUnusedLoop_mem (size : Int) (used : List usableBlock) :
    ∀ (prevEnd : Int),
      used.Pairwise (fun a b => a.stop < b.start) →
      (∀ u ∈ used, prevEnd ≤ u.start ∧ u.start ≤ u.stop ∧ u.stop ≤ size - 1) →
      ∀ x : Int,
        memBlocks (computeUnusedLoop size prevEnd used) x ↔
          (prevEnd + 1 ≤ x ∧ x ≤ size - 1 ∧ ¬ memBlocks used x) := by
  induction used with
  | nil =>
    intro prevEnd _ _ x
    simp only [computeUnusedLoop]
    split
    · simp only [memBlocks_cons, memBlocks_nil, or_false, iff_def]
      constructor
      · intro h
        refine ⟨by omega, by omega, by simp⟩
      · intro h
        omega
    · simp only [memBlocks_nil, false_iff]
      omega
  | cons u rest ih =>
    intro prevEnd hpw hin x
    rw [List.pairwise_cons] at hpw
    have hu := hin u (by simp)
    have hinrest : ∀ v ∈ rest, u.stop ≤ v.start ∧ v.start ≤ v.stop ∧ v.stop ≤ size - 1 :=
      fun v hv => ⟨le_of_lt (hpw.1 v hv), (hin v (by simp [hv])).2⟩
    have hrec := ih u.stop hpw.2 hinrest x
    simp only [computeUnusedLoop, memBlocks_append, hrec, memBlocks_cons]
    constructor
    · intro h
      rcases h with h | h
      · split at h
        · simp only [memBlocks_cons, memBlocks_nil, or_false] at h
          refine ⟨by omega, by omega, ?_⟩
          rintro (hx | hx)
          · omega
          · rcases hx with ⟨b, hb, hbx⟩
            have := hinrest b hb
            omega
        · simp at h
      · refine ⟨by omega, h.2.1, ?_⟩
        rintro (hx | hx)
        · omega
        · exact h.2.2 hx
    · rintro ⟨h1, h2, h3⟩
      rw [not_or] at h3
      by_cases hcase : x ≤ u.start - 1
      · left
        have hgap : u.start > prevEnd + 1 := by
          have := h3.1
          omega
        rw [if_pos hgap]
        simp only [memBlocks_cons, memBlocks_nil, or_false]
        omega
      · right
        have := h3.1
        exact ⟨by omega, h2, h3.2⟩

/-- C1 (counterexample).  The claim says the union of
`computeUnused(size, used)` is exactly `[0, size − 1]` minus the union of
`used`; with `size = 10` and no used blocks, byte `0` lies in
`[0, 9] \ ∅` but in none of the returned gaps, so the claim is false. -/
theorem computeUnused_c1_counterexample :
    ((0 : Int) ≤ 0 ∧ (0 : Int) ≤ 10 - 1 ∧ ¬ memBlocks [] 0) ∧
      ¬ memBlocks (computeUnused 10 []) 0 := by
  decide

/-- C1 (amended).  For every disk size and every list `used` of
pairwise-disjoint, sorted, nonempty byte intervals contained in
`[0, size − 1]`, `computeUnused(size, used)` returns a list of disjoint,
sorted, nonempty intervals whose union is exactly `[1, size − 1]` minus
the union of `used` — byte `0` is never reported free. -/
theorem computeUnused_c1_amended (size : Int) (used : List usableBlock)
    (hdisj : used.Pairwise (fun a b => a.stop < b.start))
    (hin : ∀ u ∈ used, 0 ≤ u.start ∧ u.start ≤ u.stop ∧ u.stop ≤ size - 1) :
    (∀ x : Int, memBlocks (computeUnused size used) x ↔
        (1 ≤ x ∧ x ≤ size - 1 ∧ ¬ memBlocks used x)) ∧
      (computeUnused size used).Pairwise (fun a b => a.stop < b.start) ∧
      ∀ g ∈ computeUnused size used, g.start ≤ g.stop := by
  refine ⟨fun x => ?_, ?_, fun g hg => ?_⟩
  · simpa using computeUnusedLoop_mem size used 0 hdisj hin x
  · exact computeUnusedLoop_pairwise size used 0 hdisj hin
  · exact (computeUnusedLoop_bounds size used 0 hdisj hin g hg).2.1

/-- C1 (witness).  The amended theorem applied to a concrete input. -/
theorem computeUnused_c1_witness :
    memBlocks (computeUnused 10 [⟨2, 4, 3⟩]) 5 :=
  ((computeUnused_c1_amended 10 [⟨2, 4, 3⟩] (by decide) (by decide)).1 5).mpr (by decide)

/-- The lowest-number search never returns less than its starting
candidate. -/
theorem findLowestNumberAux_ge (used : List Int) :
    ∀ (fuel : Nat) (pn : Int), pn ≤ findLowestNumberAux used fuel pn := by
  intro fuel
  induction fuel with
  | zero => intro pn; simp [findLowestNumberAux]
  | succ fuel ih =>
    intro pn
    simp only [findLowestNumberAux]
    split
    · have := ih (pn + 1)
      omega
    · omega

/-- If some candidate within the fuel window is free, the lowest-number
search returns a number not in `used`. -/
theorem findLowestNumberAux_not_mem (used : List Int) :
    ∀ (fuel : Nat) (pn : Int),
      (∃ k : Int, pn ≤ k ∧ k < pn + fuel ∧ k ∉ used) →
      findLowestNumberAux used fuel pn ∉ used := by
  intro fuel
  induction fuel with
  | zero =>
    rintro pn ⟨k, hk1, hk2, _⟩
    omega
  | succ fuel ih =>
    rintro pn ⟨k, hk1, hk2, hk3⟩
    simp only [findLowestNumberAux]
    split
    · rename_i hmem
      refine ih (pn + 1) ⟨k, ?_, by omega, hk3⟩
      rcases eq_or_lt_of_le hk1 with h | h
      · exact absurd (h ▸ hmem) hk3
      · omega
    · assumption

/-- Everything strictly between the starting candidate and the returned
number is in `used`. -/
theorem findLowestNumberAux_min (used : List Int) :
    ∀ (fuel : Nat) (pn : Int) (m : Int),
      pn ≤ m → m < findLowestNumberAux used fuel pn → m ∈ used := by
  intro fuel
  induction fuel with
  | zero =>
    intro pn m h1 h2
    simp only [findLowestNumberAux] at h2
    omega
  | succ fuel ih =>
    intro pn m h1 h2
    simp only [findLowestNumberAux] at h2
    split at h2
    · rename_i hmem
      rcases eq_or_lt_of_le h1 with h | h
      · exact h ▸ hmem
      · exact ih (pn + 1) m (by omega) h2
    · omega

/-- Pigeonhole: among the `used.length + 1` integers starting at `pn`,
at least one is not in `used`. -/
theorem exists_free_number (used : List Int) (pn : Int) :
    ∃ k : Int, pn ≤ k ∧ k < pn + (used.length + 1) ∧ k ∉ used := by
  by_contra h
  push_neg at h
  have hsub : Finset.Icc pn (pn + used.length) ⊆ used.toFinset := by
    intro k hk
    rw [Finset.mem_Icc] at hk
    exact List.mem_toFinset.mpr (h k hk.1 (by omega))
  have hcard := Finset.card_le_card hsub
  rw [Int.card_Icc] at hcard
  have hle := used.toFinset_card_le
  omega

/-- `findLowestNumber used 1` is exactly the smallest positive integer
not in `used` (the semantics of the unbounded Go loop). -/
theorem findLowestNumber_spec (used : List Int) :
    1 ≤ findLowestNumber used 1 ∧ findLowestNumber used 1 ∉ used ∧
      ∀ m : Int, 1 ≤ m → m < findLowestNumber used 1 → m ∈ used :=
  ⟨findLowestNumberAux_ge used (used.length + 1) 1,
   findLowestNumberAux_not_mem used (used.length + 1) 1 (exists_free_number used 1),
   fun m h1 h2 => findLowestNumberAux_min used (used.length + 1) 1 m h1 h2⟩

/-- First-fit characterisation of the gap scan: if the block at position
`i` is the first one long enough for `sz`, the scan allocates at its
start and shortens (or removes) exactly that block. -/
theorem allocateInUnused_firstFit (sz : Int) :
    ∀ (unused : List usableBlock) (i : Nat) (hi : i < unused.length),
      sz ≤ (unused.get ⟨i, hi⟩).stop - (unused.get ⟨i, hi⟩).start + 1 →
      (∀ j (hj : j < i),
        (unused.get ⟨j, Nat.lt_trans hj hi⟩).stop
          - (unused.get ⟨j, Nat.lt_trans hj hi⟩).start + 1 < sz) →
      allocateInUnused sz unused = some ((unused.get ⟨i, hi⟩).start,
        unused.take i
          ++ (if (unused.get ⟨i, hi⟩).start + sz > (unused.get ⟨i, hi⟩).stop then []
              else [{ unused.get ⟨i, hi⟩ with start := (unused.get ⟨i, hi⟩).start + sz }])
          ++ unused.drop (i + 1)) := by
  intro unused
  induction unused with
  | nil => intro i hi; simp at hi
  | cons u rest ih =>
    intro i hi hfit hfirst
    cases i with
    | zero =>
      simp only [List.get] at hfit ⊢
      simp only [allocateInUnused, if_pos (by omega : u.stop - u.start + 1 ≥ sz)]
      simp only [List.take_zero, List.drop_one, List.nil_append, List.tail_cons,
        Option.some.injEq, Prod.mk.injEq, true_and]
      split <;> simp
    | succ j =>
      have hhead := hfirst 0 (Nat.succ_pos j)
      simp only [List.get] at hhead hfit ⊢
      simp only [allocateInUnused, if_neg (by omega : ¬ u.stop - u.start + 1 ≥ sz)]
      rw [ih j (Nat.lt_of_succ_lt_succ hi) hfit
        (fun k hk => hfirst (k + 1) (Nat.succ_lt_succ hk))]
      simp [List.take_succ_cons, List.drop_succ_cons]

/-- C2.  For every request whose target size is at least the original's
size (including equality, the pure-move case), the planner's request
loop allocates a fresh slot: it places the target at the start of the
first unused gap whose inclusive length holds the target size, shortens
that gap by the target size (removing it when empty), and gives the
target the smallest positive integer not in the used-number set,
recording that number as used for the remaining requests. -/
theorem calculateResizes_c2_grow (unused : List usableBlock) (usedNums : List Int)
    (gp : partitionResizeTarget) (rest : List partitionResizeTarget)
    (hge : ¬ gp.target.size < gp.original.size)
    (i : Nat) (hi : i < unused.length)
    (hfit : gp.target.size ≤ (unused.get ⟨i, hi⟩).stop - (unused.get ⟨i, hi⟩).start + 1)
    (hfirst : ∀ j (hj : j < i),
      (unused.get ⟨j, Nat.lt_trans hj hi⟩).stop
        - (unused.get ⟨j, Nat.lt_trans hj hi⟩).start + 1 < gp.target.size) :
    calculateResizesLoop unused usedNums (gp :: rest) =
      (calculateResizesLoop
          (unused.take i
            ++ (if (unused.get ⟨i, hi⟩).start + gp.target.size > (unused.get ⟨i, hi⟩).stop then []
                else [{ unused.get ⟨i, hi⟩ with
                         start := (unused.get ⟨i, hi⟩).start + gp.target.size }])
            ++ unused.drop (i + 1))
          (findLowestNumber usedNums 1 :: usedNums) rest).map
        (fun rs =>
          { gp with target := { gp.target with
              start := (unused.get ⟨i, hi⟩).start
              stop := (unused.get ⟨i, hi⟩).start + gp.target.size - 1
              number := findLowestNumber usedNums 1 } } :: rs)
    ∧ 1 ≤ findLowestNumber usedNums 1
    ∧ findLowestNumber usedNums 1 ∉ usedNums
    ∧ ∀ m : Int, 1 ≤ m → m < findLowestNumber usedNums 1 → m ∈ usedNums := by
  have hspec := findLowestNumber_spec usedNums
  refine ⟨?_, hspec.1, hspec.2.1, hspec.2.2⟩
  simp only [calculateResizesLoop, if_neg hge]
  rw [allocateInUnused_firstFit gp.target.size unused i hi hfit hfirst]

/-- C2 (witness).  The grow-step theorem applied to a request whose
target size equals its original size: the first gap is too small, the
second fits; slot 3 is the lowest number outside `{1, 2}`. -/
theorem calculateResizes_c2_witness :
    calculateResizesLoop [⟨0, 0, 0⟩, ⟨10, 19, 0⟩] [1, 2]
        [{ original := { size := 5 }, target := { size := 5 } }]
      = .ok [{ original := { size := 5 },
               target := { size := 5, start := 10, stop := 14, number := 3 } }] := by
  have h := (calculateResizes_c2_grow [⟨0, 0, 0⟩, ⟨10, 19, 0⟩] [1, 2]
    { original := { size := 5 }, target := { size := 5 } } []
    (by decide) 1 (by decide) (by decide) (by decide)).1
  rw [h]
  decide

/-- The shrink-filesystems step emits only external-shrink events (in
particular no GPT commit and no identity swap). -/
theorem shrinkFilesystemsGo_events (fsType : Int → Option FsKind) :
    ∀ (rs : List partitionResizeTarget) (evs : List ExecEvent),
      shrinkFilesystemsGo fsType rs = .ok evs →
      ∀ e ∈ evs, ∃ n, e = ExecEvent.shrinkFS n := by
  intro rs
  induction rs with
  | nil =>
    intro evs h e he
    simp only [shrinkFilesystemsGo] at h
    cases h
    simp at he
  | cons r rest ih =>
    intro evs h e he
    simp only [shrinkFilesystemsGo] at h
    split at h
    · exact ih evs h e he
    · split at h
      · cases h
      · split at h
        · cases hrec : shrinkFilesystemsGo fsType rest with
          | error msg => rw [hrec] at h; cases h
          | ok evs' =>
            rw [hrec] at h
            simp only [Except.map] at h
            cases h
            rcases List.mem_cons.mp he with he | he
            · exact ⟨r.original.number, he⟩
            · exact ih evs' hrec e he
        · cases h

/-- The shrink-partitions step commits at most once. -/
theorem shrinkPartitionsGo_events (parts : List gptPartition)
    (rs : List partitionResizeTarget) (parts' : List gptPartition)
    (evs : List ExecEvent) (h : shrinkPartitionsGo parts rs = .ok (parts', evs)) :
    evs = [] ∨ evs = [ExecEvent.commit] := by
  simp only [shrinkPartitionsGo] at h
  split at h
  · cases h
  · cases h
    split <;> simp

/-- The copy-filesystems step emits only copy and filesystem-creation
events. -/
theorem copyFilesystemsGo_events (fsType : Int → Option FsKind) :
    ∀ (rs : List partitionResizeTarget) (evs : List ExecEvent),
      copyFilesystemsGo fsType rs = .ok evs →
      ∀ e ∈ evs,
        (∃ a b, e = ExecEvent.copyRaw a b) ∨ (∃ a, e = ExecEvent.createFS a) ∨
          (∃ a b, e = ExecEvent.copyFS a b) := by
  intro rs
  induction rs with
  | nil =>
    intro evs h e he
    simp only [copyFilesystemsGo] at h
    cases h
    simp at he
  | cons r rest ih =>
    intro evs h e he
    simp only [copyFilesystemsGo] at h
    split at h <;>
      first
      | cases h
      | · rename_i heq
          cases hrec : copyFilesystemsGo fsType rest with
          | error msg => rw [hrec] at h; cases h
          | ok evs' =>
            rw [hrec] at h
            simp only [Except.map] at h
            cases h
            rcases List.mem_cons.mp he with he | he
            · subst he; simp
            · exact ih evs' hrec e he
      | · rename_i heq
          cases hrec : copyFilesystemsGo fsType rest with
          | error msg => rw [hrec] at h; cases h
          | ok evs' =>
            rw [hrec] at h
            simp only [Except.map] at h
            cases h
            rcases List.mem_cons.mp he with he | he
            · subst he; simp
            · rcases List.mem_cons.mp he with he | he
              · subst he; simp
              · exact ih evs' hrec e he

/-- C3 (amended).  Whenever the executor `resize` succeeds, it performs
exactly the steps shrink-filesystems, shrink-partition-entries,
create-new-partitions, copy-filesystems, remove-old-partitions, in that
order.  There is no identity-swap step.  The GPT is committed once by
the create step and once by the remove step; the shrink-entries step
commits only when some action actually shrinks; the filesystem-shrink
and copy steps perform no GPT commit. -/
theorem resize_c3_amended (parts : List gptPartition) (fsType : Int → Option FsKind)
    (resizes : List partitionResizeTarget) (t : List gptPartition) (evs : List ExecEvent)
    (h : resizeGo parts fsType resizes = .ok (t, evs)) :
    ∃ ev1 ev2 ev4,
      evs = [ExecEvent.stepShrinkFilesystems] ++ ev1
        ++ [ExecEvent.stepShrinkPartitions] ++ ev2
        ++ [ExecEvent.stepCreatePartitions, ExecEvent.commit,
            ExecEvent.stepCopyFilesystems] ++ ev4
        ++ [ExecEvent.stepRemovePartitions, ExecEvent.commit]
      ∧ (∀ e ∈ ev1, ∃ n, e = ExecEvent.shrinkFS n)
      ∧ (ev2 = [] ∨ ev2 = [ExecEvent.commit])
      ∧ (∀ e ∈ ev4, (∃ a b, e = ExecEvent.copyRaw a b) ∨ (∃ a, e = ExecEvent.createFS a) ∨
          (∃ a b, e = ExecEvent.copyFS a b))
      ∧ ExecEvent.stepSwapIdentity ∉ evs := by
  simp only [resizeGo, bind, Except.bind] at h
  cases h1 : shrinkFilesystemsGo fsType resizes with
  | error m => rw [h1] at h; cases h
  | ok ev1 =>
  rw [h1] at h
  dsimp only at h
  cases h2 : shrinkPartitionsGo parts resizes with
  | error m => rw [h2] at h; cases h
  | ok p2 =>
  rw [h2] at h
  obtain ⟨t2, ev2⟩ := p2
  dsimp only at h
  cases h3 : createPartitionsGo t2 resizes with
  | error m => rw [h3] at h; cases h
  | ok p3 =>
  rw [h3] at h
  obtain ⟨t3, ev3⟩ := p3
  dsimp only at h
  cases h4 : copyFilesystemsGo fsType resizes with
  | error m => rw [h4] at h; cases h
  | ok ev4 =>
  rw [h4] at h
  dsimp only at h
  cases h5 : removePartitionsGo t3 (resizes.map fun r => r.original.number) with
  | error m => rw [h5] at h; cases h
  | ok p5 =>
  rw [h5] at h
  obtain ⟨t5, ev5⟩ := p5
  dsimp only at h
  cases h
  have hev3 : ev3 = [ExecEvent.commit] := by
    simp only [createPartitionsGo] at h3
    cases hc : createPartitionsLoop t2 resizes with
    | error m => rw [hc] at h3; cases h3
    | ok p => rw [hc] at h3; cases h3; rfl
  have hev5 : ev5 = [ExecEvent.commit] := by
    simp only [removePartitionsGo] at h5
    split at h5
    · cases h5
    · cases h5; rfl
  have he1 := shrinkFilesystemsGo_events fsType resizes ev1 h1
  have he2 := shrinkPartitionsGo_events parts resizes t2 ev2 h2
  have he4 := copyFilesystemsGo_events fsType resizes ev4 h4
  subst hev3 hev5
  have hno1 : ExecEvent.stepSwapIdentity ∉ ev1 := by
    intro hm
    rcases he1 _ hm with ⟨n, hn⟩
    cases hn
  have hno2 : ExecEvent.stepSwapIdentity ∉ ev2 := by
    rcases he2 with h2' | h2' <;> subst h2' <;> simp
  have hno4 : ExecEvent.stepSwapIdentity ∉ ev4 := by
    intro hm
    rcases he4 _ hm with ⟨a, b, hab⟩ | ⟨a, hab⟩ | ⟨a, b, hab⟩ <;> cases hab
  refine ⟨ev1, ev2, ev4, by simp, he1, he2, he4, ?_⟩
  simp [List.mem_append, hno1, hno2, hno4]

/-- C3 (counterexample).  A concrete successful run of the executor: its
step trace is shrink-filesystems, shrink-partitions, create (commit),
copy, remove (commit) — it contains no identity-swap step, contradicting
the claimed shrink → shrink → create → copy → swap-identity → remove
sequence. -/
theorem resize_c3_counterexample :
    resizeGo
        [{ index := 1, start := 100, size := 50, name := "p1", guid := "guid-1",
           ptype := "T", attributes := 7 }]
        (fun _ => some FsKind.ext4)
        [{ original := { label := "p1", start := 100, size := 50, number := 1 },
           target := { start := 200, size := 80, number := 2 } }]
      = .ok ([{ index := 1, start := 100, size := 50, name := "p1", guid := "guid-1",
                ptype := gptUnused, attributes := 7 },
              { index := 0, start := 200, size := 80, name := "p1", guid := "guid-1",
                ptype := "T", attributes := 7 }],
             [ExecEvent.stepShrinkFilesystems, ExecEvent.stepShrinkPartitions,
              ExecEvent.stepCreatePartitions, ExecEvent.commit,
              ExecEvent.stepCopyFilesystems, ExecEvent.copyRaw 1 2,
              ExecEvent.stepRemovePartitions, ExecEvent.commit])
    ∧ ExecEvent.stepSwapIdentity ∉
        ([ExecEvent.stepShrinkFilesystems, ExecEvent.stepShrinkPartitions,
          ExecEvent.stepCreatePartitions, ExecEvent.commit,
          ExecEvent.stepCopyFilesystems, ExecEvent.copyRaw 1 2,
          ExecEvent.stepRemovePartitions, ExecEvent.commit] : List ExecEvent) := by
  decide

/-- C3 (witness).  The amended theorem applied to a concrete FAT32 run. -/
theorem resize_c3_witness :
    ExecEvent.stepSwapIdentity ∉
      ([ExecEvent.stepShrinkFilesystems, ExecEvent.stepShrinkPartitions,
        ExecEvent.stepCreatePartitions, ExecEvent.commit,
        ExecEvent.stepCopyFilesystems, ExecEvent.createFS 2, ExecEvent.copyFS 1 2,
        ExecEvent.stepRemovePartitions, ExecEvent.commit] : List ExecEvent) := by
  obtain ⟨ev1, ev2, ev4, heq, he1, he2, he4, hswap⟩ :=
    resize_c3_amended
      [{ index := 1, start := 10, size := 5, name := "a", guid := "g",
         ptype := "t", attributes := 0 }]
      (fun _ => some FsKind.fat32)
      [{ original := { label := "a", start := 10, size := 5, number := 1 },
         target := { start := 20, size := 5, number := 2 } }]
      [{ index := 1, start := 10, size := 5, name := "a", guid := "g",
         ptype := gptUnused, attributes := 0 },
       { index := 0, start := 20, size := 5, name := "a", guid := "g",
         ptype := "t", attributes := 0 }]
      [ExecEvent.stepShrinkFilesystems, ExecEvent.stepShrinkPartitions,
       ExecEvent.stepCreatePartitions, ExecEvent.commit,
       ExecEvent.stepCopyFilesystems, ExecEvent.createFS 2, ExecEvent.copyFS 1 2,
       ExecEvent.stepRemovePartitions, ExecEvent.commit]
      (by decide)
  exact hswap

/-- C4 (counterexample).  For a concrete move action the created entry
carries the original's name `"p1"` (not the alternate label
`"p1_resized2"`), the original's partition GUID (not a fresh one), and
the original's type GUID (not a neutral one). -/
theorem createPartitions_c4_counterexample :
    createPartitionsGo
        [{ index := 1, start := 100, size := 50, name := "p1", guid := "guid-1",
           ptype := "T", attributes := 7 }]
        [{ original := { label := "p1", start := 100, size := 50, number := 1 },
           target := { start := 200, size := 80, number := 2 } }]
      = .ok ([{ index := 1, start := 100, size := 50, name := "p1", guid := "guid-1",
                ptype := "T", attributes := 7 },
              { index := 0, start := 200, size := 80, name := "p1", guid := "guid-1",
                ptype := "T", attributes := 7 }],
             [ExecEvent.commit])
    ∧ "p1" ≠ getAlternateLabel "p1" := by
  constructor
  · decide
  · decide

/-- C4 (amended).  For every move/grow action that is not skipped, the
GPT entry appended by the executor's create step copies the original
entry's name, type GUID, partition GUID and attributes verbatim — no
`_resized2` suffix, no fresh partition GUID, no neutral type — and takes
only start and size from the target. -/
theorem createPartitions_c4_amended (parts : List gptPartition)
    (r : partitionResizeTarget) (orig : gptPartition)
    (hchange : ¬(r.original.size = r.target.size ∧ r.original.start = r.target.start))
    (hget : listGetInt parts (r.original.number - 1) = some orig) :
    createPartitionsGo parts [r] =
      .ok (parts ++ [{ index := 0, start := r.target.start, size := r.target.size,
                       name := orig.name, guid := orig.guid, ptype := orig.ptype,
                       attributes := orig.attributes }], [ExecEvent.commit]) := by
  simp only [createPartitionsGo, createPartitionsLoop, if_neg hchange, hget, Except.map]

/-- C4 (witness).  The amended theorem applied to a concrete action. -/
theorem createPartitions_c4_witness :
    createPartitionsGo
        [{ index := 1, start := 5, size := 5, name := "x", guid := "xg",
           ptype := "xt", attributes := 3 }]
        [{ original := { label := "x", start := 5, size := 5, number := 1 },
           target := { start := 30, size := 7, number := 2 } }]
      = .ok ([{ index := 1, start := 5, size := 5, name := "x", guid := "xg",
                ptype := "xt", attributes := 3 }]
              ++ [{ index := 0, start := 30, size := 7, name := "x", guid := "xg",
                    ptype := "xt", attributes := 3 }],
             [ExecEvent.commit]) :=
  createPartitions_c4_amended
    [{ index := 1, start := 5, size := 5, name := "x", guid := "xg",
       ptype := "xt", attributes := 3 }]
    { original := { label := "x", start := 5, size := 5, number := 1 },
      target := { start := 30, size := 7, number := 2 } }
    { index := 1, start := 5, size := 5, name := "x", guid := "xg",
      ptype := "xt", attributes := 3 }
    (by decide) (by decide)

/-- C5 (counterexample).  Running the create-partitions step twice on a
concrete table and plan appends the planned entry twice: the second run
does not detect that the table already contains it, so the result is not
the single-run result. -/
theorem createPartitions_c5_counterexample :
    createPartitionsGo
        [{ index := 1, start := 100, size := 50, name := "p1", guid := "guid-1",
           ptype := "T", attributes := 7 }]
        [{ original := { label := "p1", start := 100, size := 50, number := 1 },
           target := { start := 200, size := 80, number := 2 } }]
      = .ok ([{ index := 1, start := 100, size := 50, name := "p1", guid := "guid-1",
                ptype := "T", attributes := 7 },
              { index := 0, start := 200, size := 80, name := "p1", guid := "guid-1",
                ptype := "T", attributes := 7 }], [ExecEvent.commit])
    ∧ createPartitionsGo
        [{ index := 1, start := 100, size := 50, name := "p1", guid := "guid-1",
           ptype := "T", attributes := 7 },
         { index := 0, start := 200, size := 80, name := "p1", guid := "guid-1",
           ptype := "T", attributes := 7 }]
        [{ original := { label := "p1", start := 100, size := 50, number := 1 },
           target := { start := 200, size := 80, number := 2 } }]
      = .ok ([{ index := 1, start := 100, size := 50, name := "p1", guid := "guid-1",
                ptype := "T", attributes := 7 },
              { index := 0, start := 200, size := 80, name := "p1", guid := "guid-1",
                ptype := "T", attributes := 7 },
              { index := 0, start := 200, size := 80, name := "p1", guid := "guid-1",
                ptype := "T", attributes := 7 }], [ExecEvent.commit])
    ∧ ([{ index := 1, start := 100, size := 50, name := "p1", guid := "guid-1",
          ptype := "T", attributes := 7 },
        { index := 0, start := 200, size := 80, name := "p1", guid := "guid-1",
          ptype := "T", attributes := 7 },
        { index := 0, start := 200, size := 80, name := "p1", guid := "guid-1",
          ptype := "T", attributes := 7 }] : List gptPartition)
      ≠ [{ index := 1, start := 100, size := 50, name := "p1", guid := "guid-1",
           ptype := "T", attributes := 7 },
         { index := 0, start := 200, size := 80, name := "p1", guid := "guid-1",
           ptype := "T", attributes := 7 }] := by
  refine ⟨by decide, by decide, by decide⟩

/-- The create-partitions loop appends entries that depend only on the
first `n` rows of its accumulator: two accumulators agreeing there
receive the same appended suffix. -/
theorem createPartitionsLoop_agrees :
    ∀ (rs : List partitionResizeTarget) (L₁ L₂ : List gptPartition) (n : Nat),
      (∀ i : Nat, i < n → L₁[i]? = L₂[i]?) →
      (∀ r ∈ rs, ¬(r.original.size = r.target.size ∧ r.original.start = r.target.start) →
        0 ≤ r.original.number - 1 ∧ (r.original.number - 1).toNat < n) →
      n ≤ L₁.length → n ≤ L₂.length →
      ∃ Δ, createPartitionsLoop L₁ rs = .ok (L₁ ++ Δ) ∧
        createPartitionsLoop L₂ rs = .ok (L₂ ++ Δ) ∧
        (Δ = [] ↔ ∀ r ∈ rs, r.original.size = r.target.size ∧ r.original.start = r.target.start) := by
  intro rs
  induction rs with
  | nil =>
    intro L₁ L₂ n _ _ _ _
    exact ⟨[], by simp [createPartitionsLoop], by simp [createPartitionsLoop], by simp⟩
  | cons r rest ih =>
    intro L₁ L₂ n hag hidx hn1 hn2
    by_cases hskip : r.original.size = r.target.size ∧ r.original.start = r.target.start
    · obtain ⟨Δ, h1, h2, h3⟩ := ih L₁ L₂ n hag (fun q hq => hidx q (by simp [hq])) hn1 hn2
      refine ⟨Δ, ?_, ?_, ?_⟩
      · simpa [createPartitionsLoop, if_pos hskip] using h1
      · simpa [createPartitionsLoop, if_pos hskip] using h2
      · rw [h3]
        constructor
        · intro hall q hq
          rcases List.mem_cons.mp hq with hq | hq
          · subst hq; exact hskip
          · exact hall q hq
        · intro hall q hq
          exact hall q (by simp [hq])
    · obtain ⟨hge, hlt⟩ := hidx r (by simp) hskip
      have hidxlt1 : (r.original.number - 1).toNat < L₁.length := lt_of_lt_of_le hlt hn1
      have hgeteq : L₁[(r.original.number - 1).toNat]? = L₂[(r.original.number - 1).toNat]? :=
        hag _ hlt
      have hget1 : listGetInt L₁ (r.original.number - 1)
          = some (L₁.get ⟨(r.original.number - 1).toNat, hidxlt1⟩) := by
        unfold listGetInt
        rw [if_pos hge]
        exact List.getElem?_eq_getElem hidxlt1
      have hget2 : listGetInt L₂ (r.original.number - 1)
          = some (L₁.get ⟨(r.original.number - 1).toNat, hidxlt1⟩) := by
        unfold listGetInt
        rw [if_pos hge, ← hgeteq]
        exact List.getElem?_eq_getElem hidxlt1
      obtain ⟨Δ, h1, h2, h3⟩ := ih
        (L₁ ++ [{ index := 0, start := r.target.start, size := r.target.size,
                  name := (L₁.get ⟨(r.original.number - 1).toNat, hidxlt1⟩).name,
                  guid := (L₁.get ⟨(r.original.number - 1).toNat, hidxlt1⟩).guid,
                  ptype := (L₁.get ⟨(r.original.number - 1).toNat, hidxlt1⟩).ptype,
                  attributes := (L₁.get ⟨(r.original.number - 1).toNat, hidxlt1⟩).attributes }])
        (L₂ ++ [{ index := 0, start := r.target.start, size := r.target.size,
                  name := (L₁.get ⟨(r.original.number - 1).toNat, hidxlt1⟩).name,
                  guid := (L₁.get ⟨(r.original.number - 1).toNat, hidxlt1⟩).guid,
                  ptype := (L₁.get ⟨(r.original.number - 1).toNat, hidxlt1⟩).ptype,
                  attributes := (L₁.get ⟨(r.original.number - 1).toNat, hidxlt1⟩).attributes }])
        n
        (fun i hi => by
          rw [List.getElem?_append_left (lt_of_lt_of_le hi hn1),
            List.getElem?_append_left (lt_of_lt_of_le hi hn2)]
          exact hag i hi)
        (fun q hq => hidx q (by simp [hq]))
        (by simp; omega) (by simp; omega)
      refine ⟨{ index := 0, start := r.target.start, size := r.target.size,
                name := (L₁.get ⟨(r.original.number - 1).toNat, hidxlt1⟩).name,
                guid := (L₁.get ⟨(r.original.number - 1).toNat, hidxlt1⟩).guid,
                ptype := (L₁.get ⟨(r.original.number - 1).toNat, hidxlt1⟩).ptype,
                attributes := (L₁.get ⟨(r.original.number - 1).toNat, hidxlt1⟩).attributes } :: Δ,
        ?_, ?_, ?_⟩
      · rw [createPartitionsLoop, if_neg hskip, hget1]
        dsimp only
        rw [h1]
        simp
      · rw [createPartitionsLoop, if_neg hskip, hget2]
        dsimp only
        rw [h2]
        simp
      · simp only [List.cons_ne_nil, false_iff]
        intro hall
        exact hskip (hall r (by simp))

/-- C5 (amended).  The create-partitions step is not idempotent: it
skips an action only when that action's size and start are unchanged —
it never inspects the table for already-created entries — so running it
a second time on the table produced by a successful first run appends
the same new entries again, and whenever some action was not skipped the
second run's table differs from the first run's. -/
theorem createPartitions_c5_amended (parts : List gptPartition)
    (rs : List partitionResizeTarget) (parts' : List gptPartition) (ev : List ExecEvent)
    (hrun : createPartitionsGo parts rs = .ok (parts', ev))
    (hidx : ∀ r ∈ rs, ¬(r.original.size = r.target.size ∧ r.original.start = r.target.start) →
      0 ≤ r.original.number - 1 ∧ (r.original.number - 1).toNat < parts.length) :
    createPartitionsGo parts' rs = .ok (parts' ++ parts'.drop parts.length, ev)
    ∧ ((∃ r ∈ rs, ¬(r.original.size = r.target.size ∧ r.original.start = r.target.start)) →
        parts' ++ parts'.drop parts.length ≠ parts') := by
  simp only [createPartitionsGo] at hrun
  cases hloop : createPartitionsLoop parts rs with
  | error m =>
    rw [hloop] at hrun
    simp only [Except.map] at hrun
    cases hrun
  | ok q =>
  rw [hloop] at hrun
  simp only [Except.map, Except.ok.injEq, Prod.mk.injEq] at hrun
  obtain ⟨hq, hev⟩ := hrun
  subst hq
  subst hev
  obtain ⟨Δ, hA1, _, hA3⟩ := createPartitionsLoop_agrees rs parts parts parts.length
    (fun i _ => rfl) hidx le_rfl le_rfl
  have hqΔ : q = parts ++ Δ := by
    rw [hloop] at hA1
    exact (Except.ok.injEq _ _).mp hA1
  have hqlen : parts.length ≤ q.length := by
    rw [hqΔ]
    simp
  have hag : ∀ i : Nat, i < parts.length → parts[i]? = q[i]? := by
    intro i hi
    rw [hqΔ, List.getElem?_append_left hi]
  obtain ⟨Δ₂, hB1, hB2, _⟩ := createPartitionsLoop_agrees rs parts q parts.length
    hag hidx le_rfl hqlen
  have hΔeq : Δ₂ = Δ := by
    rw [hloop] at hB1
    have := (Except.ok.injEq _ _).mp hB1
    rw [hqΔ] at this
    exact (List.append_cancel_left this.symm)
  subst hΔeq
  have hdrop : q.drop parts.length = Δ₂ := by
    rw [hqΔ]
    exact List.drop_left parts Δ₂
  constructor
  · simp only [createPartitionsGo, hB2, Except.map, hdrop]
  · rintro ⟨r, hr, hrns⟩ habs
    have hΔne : Δ₂ ≠ [] := by
      intro hnil
      exact hrns (hA3.mp hnil r hr)
    rw [hdrop] at habs
    have := congrArg List.length habs
    simp at this
    exact hΔne this

/-- C5 (witness).  The amended theorem applied to a concrete first run:
the second run appends the first run's new entry again. -/
theorem createPartitions_c5_witness :
    createPartitionsGo
        [{ index := 1, start := 100, size := 50, name := "p1", guid := "guid-1",
           ptype := "T", attributes := 7 },
         { index := 0, start := 200, size := 80, name := "p1", guid := "guid-1",
           ptype := "T", attributes := 7 }]
        [{ original := { label := "p1", start := 100, size := 50, number := 1 },
           target := { start := 200, size := 80, number := 2 } }]
      = .ok ([{ index := 1, start := 100, size := 50, name := "p1", guid := "guid-1",
                ptype := "T", attributes := 7 },
              { index := 0, start := 200, size := 80, name := "p1", guid := "guid-1",
                ptype := "T", attributes := 7 }]
              ++ ([{ index := 1, start := 100, size := 50, name := "p1", guid := "guid-1",
                     ptype := "T", attributes := 7 },
                   { index := 0, start := 200, size := 80, name := "p1", guid := "guid-1",
                     ptype := "T", attributes := 7 }] : List gptPartition).drop
                  ([{ index := 1, start := 100, size := 50, name := "p1", guid := "guid-1",
                      ptype := "T", attributes := 7 }] : List gptPartition).length,
             [ExecEvent.commit]) :=
  (createPartitions_c5_amended
    [{ index := 1, start := 100, size := 50, name := "p1", guid := "guid-1",
       ptype := "T", attributes := 7 }]
    [{ original := { label := "p1", start := 100, size := 50, number := 1 },
       target := { start := 200, size := 80, number := 2 } }]
    [{ index := 1, start := 100, size := 50, name := "p1", guid := "guid-1",
       ptype := "T", attributes := 7 },
     { index := 0, start := 200, size := 80, name := "p1", guid := "guid-1",
       ptype := "T", attributes := 7 }]
    [ExecEvent.commit]
    (by decide) (by decide)).1

/-- C6 (counterexample).  On a disk where the single grow request fits no
gap and no shrink partition is supplied, `planResizes` does not surface
the planner's `InsufficientSpaceError`: it returns a freshly built
generic error instead. -/
theorem planResizes_c6_counterexample :
    planResizes (4 * GB)
        [{ index := 1, start := 2 * GB, size := GB, name := "p1", guid := "g1" },
         { index := 2, start := 3 * GB, size := GB, name := "p2", guid := "g2" }]
        [] [⟨.byLabel, "p1", 2 * GB⟩] none
      = .error (.generic noShrinkMsg)
    ∧ ∀ e : InsufficientSpaceError, PlanError.generic noShrinkMsg ≠ .insufficientSpace e := by
  constructor
  · decide
  · intro e h
    cases h

/-- C6 (amended).  The planner `calculateResizes` fails only with
`InsufficientSpaceError` (its error type), carrying the unplaceable
request's original label and requested size.  When it fails and no
shrink partition was supplied, `planResizes` returns a generic
"no shrink partition specified" error — not the `InsufficientSpaceError`
itself; when a shrink partition is supplied and resolves, `planResizes`
re-invokes the planner with a shrink action prepended whose target size
is the shrink partition's size minus the total grow rounded up to the
next GiB, surfacing any `InsufficientSpaceError` of that second
invocation. -/
theorem planResizes_c6_amended (diskSize : Int) (parts : List gptPartition)
    (dpd : List partitionData) (grows : List PartitionChangeS)
    (prTargets : List partitionResizeTarget) (e : InsufficientSpaceError)
    (hconv : partitionChangesToResizeTarget parts dpd grows = .ok prTargets)
    (hfail : calculateResizes diskSize parts prTargets = .error e) :
    planResizes diskSize parts dpd grows none = .error (.generic noShrinkMsg)
    ∧ ∀ (sp : PartitionIdentifierS) (shrinkData : partitionData),
        partitionIdentifiersToData parts dpd [sp] = .ok [shrinkData] →
        planResizes diskSize parts dpd grows (some sp) =
          (calculateResizes diskSize parts
              ({ original := shrinkData,
                 target := { shrinkData with
                   size := shrinkData.size -
                     (if Int.tmod ((prTargets.map fun gp => gp.target.size).sum) GB ≠ 0 then
                        (Int.tdiv ((prTargets.map fun gp => gp.target.size).sum) GB + 1) * GB
                      else (prTargets.map fun gp => gp.target.size).sum)
                   stop := shrinkData.stop -
                     (if Int.tmod ((prTargets.map fun gp => gp.target.size).sum) GB ≠ 0 then
                        (Int.tdiv ((prTargets.map fun gp => gp.target.size).sum) GB + 1) * GB
                      else (prTargets.map fun gp => gp.target.size).sum) } }
                :: prTargets)).mapError PlanError.insufficientSpace := by
  constructor
  · simp only [planResizes, hconv, hfail]
  · intro sp shrinkData hsp
    simp only [planResizes, hconv, hfail, hsp]

/-- C6 (witness).  The amended theorem applied to a concrete disk: with
the shrink partition supplied, `planResizes` is exactly the planner
re-invoked with the shrink action prepended. -/
theorem planResizes_c6_witness :
    planResizes (4 * GB)
        [{ index := 1, start := 2 * GB, size := GB, name := "p1", guid := "g1" },
         { index := 2, start := 3 * GB, size := GB, name := "p2", guid := "g2" }]
        [] [⟨.byLabel, "p1", 2 * GB⟩] (some ⟨.byLabel, "p2"⟩)
      = .ok [{ original := { label := "p2", size := GB, start := 3 * GB,
                             stop := 4 * GB - 1, number := 1 },
               target := { label := "p2", size := -GB, start := 3 * GB,
                           stop := 2 * GB - 1, number := 1 } },
             { original := { label := "p1", size := GB, start := 2 * GB,
                             stop := 3 * GB - 1, number := 0 },
               target := { size := 2 * GB, start := 1, stop := 2 * GB, number := 3 } }] := by
  rw [(planResizes_c6_amended (4 * GB)
    [{ index := 1, start := 2 * GB, size := GB, name := "p1", guid := "g1" },
     { index := 2, start := 3 * GB, size := GB, name := "p2", guid := "g2" }]
    [] [⟨.byLabel, "p1", 2 * GB⟩]
    [{ original := { label := "p1", size := GB, start := 2 * GB,
                     stop := 3 * GB - 1, number := 0 },
       target := { size := 2 * GB } }]
    ⟨"p1", 2 * GB⟩ (by decide) (by decide)).2
      ⟨.byLabel, "p2"⟩
      { label := "p2", size := GB, start := 3 * GB, stop := 4 * GB - 1, number := 1 }
      (by decide)]
  decide

/-- C7 (code bug).  The claim — echoing the spec's invariant that the
planner must never produce `target.end < target.start` — fails on the
code: with a 4 GiB disk, a 2 GiB grow of `p1`, and 1 GiB partition `p2`
as shrink partition, the rounded-up total grow (2 GiB) exceeds `p2`'s
size, the computed shrink target size is −1 GiB, and `planResizes`
succeeds with a shrink action whose `target.end` (2 GiB − 1) is below
its `target.start` (3 GiB). -/
theorem planResizes_c7_bug :
    planResizes (4 * GB)
        [{ index := 1, start := 2 * GB, size := GB, name := "p1", guid := "g1" },
         { index := 2, start := 3 * GB, size := GB, name := "p2", guid := "g2" }]
        [] [⟨.byLabel, "p1", 2 * GB⟩] (some ⟨.byLabel, "p2"⟩)
      = .ok [{ original := { label := "p2", size := GB, start := 3 * GB,
                             stop := 4 * GB - 1, number := 1 },
               target := { label := "p2", size := -GB, start := 3 * GB,
                           stop := 2 * GB - 1, number := 1 } },
             { original := { label := "p1", size := GB, start := 2 * GB,
                             stop := 3 * GB - 1, number := 0 },
               target := { size := 2 * GB, start := 1, stop := 2 * GB, number := 3 } }]
    ∧ ({ label := "p2", size := -GB, start := 3 * GB,
         stop := 2 * GB - 1, number := 1 } : partitionData).stop
      < ({ label := "p2", size := -GB, start := 3 * GB,
           stop := 2 * GB - 1, number := 1 } : partitionData).start := by
  constructor <;> decide

/-- C8 (code bug).  For a table whose only partition sits in GPT slot 1,
resolving it by label returns `number = 0` — the 0-based position of the
scan over `GetPartitions()` — not the partition's true 1-based GPT slot
index, which the rest of the code (and the claim) expects. -/
theorem partitionIdentifiersToData_c8_bug :
    partitionIdentifiersToData
        [{ index := 1, start := 100, size := 50, name := "p1", guid := "g1" }] []
        [⟨.byLabel, "p1"⟩]
      = .ok [{ label := "p1", size := 50, start := 100, stop := 149, number := 0 }]
    ∧ ([{ index := 1, start := 100, size := 50, name := "p1", guid := "g1" }] :
        List gptPartition).map gptPartition.index = [1]
    ∧ (0 : Int) ≠ 1 := by
  refine ⟨by decide, by decide, by decide⟩

/-- C9 (code bug).  The sysfs probe computes a partition record's `end`
as `(size − start + 1) · blockSize` instead of `start + size − 1` bytes:
for block size 512, start 2 sectors and size 4 sectors the record is
`start = 1024`, `size = 2048`, `end = 1536`, violating the claimed
invariant `end = start + size − 1` (which would give 3071). -/
theorem findDisks_c9_bug :
    sysfsPartitionRecord 512 1 4 2 "sda1" "p1"
      = { name := "sda1", label := "p1", size := 2048, start := 1024,
          stop := 1536, number := 1 }
    ∧ (sysfsPartitionRecord 512 1 4 2 "sda1" "p1").stop
      ≠ (sysfsPartitionRecord 512 1 4 2 "sda1" "p1").start
        + (sysfsPartitionRecord 512 1 4 2 "sda1" "p1").size - 1 := by
  refine ⟨by decide, by decide⟩

/-- Length of a modelled `WriteAt`. -/
theorem writeAt_length (dst : List Nat) (off : Nat) (data : List Nat) :
    (writeAt dst off data).length = max dst.length (off + data.length) := by
  simp [writeAt, List.length_take, List.length_drop, List.length_replicate]
  omega

/-- Pointwise characterisation of the modelled `WriteAt`: `data`
overwrites `[off, off + data.length)`, bytes of the old file elsewhere
are kept, and the hole (if any) between the old end-of-file and `off`
reads as zero. -/
theorem writeAt_getElem (dst : List Nat) (off : Nat) (data : List Nat) (i : Nat) :
    (writeAt dst off data)[i]? =
      if i < off then
        (if i < dst.length then dst[i]?
         else if i < max dst.length (off + data.length) then some 0 else none)
      else if i < off + data.length then data[i - off]?
      else dst[i]? := by
  unfold writeAt
  have hbl : (dst ++ List.replicate (off + data.length - dst.length) 0).length
      = max dst.length (off + data.length) := by
    simp [List.length_replicate]
    omega
  have htl : ((dst ++ List.replicate (off + data.length - dst.length) 0).take off).length
      = off := by
    simp only [List.length_take, hbl]
    omega
  rw [List.append_assoc]
  by_cases h1 : i < off
  · rw [List.getElem?_append_left (by rw [htl]; exact h1)]
    rw [List.getElem?_take, if_pos h1]
    by_cases h2 : i < dst.length
    · rw [List.getElem?_append_left h2, if_pos h1, if_pos h2]
    · rw [List.getElem?_append_right (by omega), List.getElem?_replicate]
      rw [if_pos h1, if_neg h2]
      by_cases h3 : i < max dst.length (off + data.length)
      · rw [if_pos (by omega : i - dst.length < off + data.length - dst.length), if_pos h3]
      · rw [if_neg (by omega), if_neg h3]
  · rw [List.getElem?_append_right (by rw [htl]; omega), htl]
    by_cases h2 : i < off + data.length
    · rw [List.getElem?_append_left (by omega : i - off < data.length)]
      rw [if_neg h1, if_pos h2]
    · rw [List.getElem?_append_right (by omega : data.length ≤ i - off), List.getElem?_drop]
      have hidx : off + data.length + (i - off - data.length) = i := by omega
      rw [hidx, if_neg h1, if_neg h2]
      by_cases h3 : i < dst.length
      · rw [List.getElem?_append_left h3]
      · rw [List.getElem?_append_right (by omega), List.getElem?_replicate,
          if_neg (by omega)]
        exact (List.getElem?_eq_none (by omega)).symm

/-- Invariant of the `CopyRange` loop: from state `(dst, copied)` it
succeeds, copies exactly `min (length − copied) (available source bytes)`
further bytes from source offset `srcOff + copied` to destination offset
`dstOff + copied`, leaves every pre-existing destination byte outside
that window unchanged, and never shrinks the destination. -/
theorem copyLoopAux_spec (src : List Nat) (srcOff dstOff length bufLen : Int)
    (hsrc : 0 ≤ srcOff) (hdst : 0 ≤ dstOff) (hbuf : 1 ≤ bufLen) :
    ∀ (fuel : Nat) (dst : List Nat) (copied : Int),
      0 ≤ copied → length - copied ≤ (fuel : Int) →
      ∃ out, copyLoopAux src srcOff dstOff length bufLen fuel dst copied = some out ∧
        (∀ j : Nat, (j : Int) < min (max (length - copied) 0)
            (max ((src.length : Int) - srcOff - copied) 0) →
          out[(dstOff + copied).toNat + j]? = src[(srcOff + copied).toNat + j]?) ∧
        (∀ i : Nat, i < dst.length →
          (i < (dstOff + copied).toNat ∨
            (dstOff + copied).toNat + (min (max (length - copied) 0)
              (max ((src.length : Int) - srcOff - copied) 0)).toNat ≤ i) →
          out[i]? = dst[i]?) ∧
        dst.length ≤ out.length := by
  intro fuel
  induction fuel with
  | zero =>
    intro dst copied _ hfuel
    refine ⟨dst, rfl, ?_, fun i _ _ => rfl, le_rfl⟩
    intro j hj
    exact absurd hj (by omega)
  | succ fuel ih =>
    intro dst copied hcop hfuel
    by_cases hlt : copied < length
    case neg =>
      simp only [copyLoopAux, if_neg hlt]
      refine ⟨dst, rfl, ?_, fun i _ _ => rfl, le_rfl⟩
      intro j hj
      exact absurd hj (by omega)
    case pos =>
      simp only [copyLoopAux, if_pos hlt, if_neg (show ¬ srcOff + copied < 0 by omega)]
      set n := min (min bufLen (length - copied))
        (max ((src.length : Int) - (srcOff + copied)) 0) with hn
      by_cases hle : n ≤ 0
      · rw [if_pos hle]
        refine ⟨dst, rfl, ?_, fun i _ _ => rfl, le_rfl⟩
        intro j hj
        exact absurd hj (by omega)
      · rw [if_neg hle]
        have hn1 : 1 ≤ n := by omega
        have hnA : n ≤ length - copied := by omega
        have hnB : n ≤ (src.length : Int) - srcOff - copied := by omega
        have hdata_len : ((src.drop (srcOff + copied).toNat).take n.toNat).length
            = n.toNat := by
          simp only [List.length_take, List.length_drop]
          omega
        obtain ⟨out, hout, hwin, hframe, hlen⟩ := ih
          (writeAt dst (dstOff + copied).toNat
            ((src.drop (srcOff + copied).toNat).take n.toNat))
          (copied + n) (by omega) (by omega)
        refine ⟨out, hout, ?_, ?_, ?_⟩
        · intro j hj
          by_cases hjn : (j : Int) < n
          · have hidx_lt : (dstOff + copied).toNat + j
                < (writeAt dst (dstOff + copied).toNat
                    ((src.drop (srcOff + copied).toNat).take n.toNat)).length := by
              rw [writeAt_length, hdata_len]
              omega
            have hleft : (dstOff + copied).toNat + j < (dstOff + (copied + n)).toNat := by
              omega
            rw [hframe ((dstOff + copied).toNat + j) hidx_lt (Or.inl hleft)]
            rw [writeAt_getElem]
            rw [if_neg (by omega), if_pos (by rw [hdata_len]; omega)]
            have hsub : (dstOff + copied).toNat + j - (dstOff + copied).toNat = j := by
              omega
            rw [hsub, List.getElem?_take, if_pos (by omega), List.getElem?_drop]
          · have hj' := hwin (j - n.toNat) (by omega)
            have e1 : (dstOff + (copied + n)).toNat + (j - n.toNat)
                = (dstOff + copied).toNat + j := by omega
            have e2 : (srcOff + (copied + n)).toNat + (j - n.toNat)
                = (srcOff + copied).toNat + j := by omega
            rw [e1, e2] at hj'
            exact hj'
        · intro i hi hcond
          have hi' : i < (writeAt dst (dstOff + copied).toNat
              ((src.drop (srcOff + copied).toNat).take n.toNat)).length := by
            rw [writeAt_length]
            omega
          have hcond' : i < (dstOff + (copied + n)).toNat ∨
              (dstOff + (copied + n)).toNat + (min (max (length - (copied + n)) 0)
                (max ((src.length : Int) - srcOff - (copied + n)) 0)).toNat ≤ i := by
            rcases hcond with h | h
            · left; omega
            · right; omega
          rw [hframe i hi' hcond']
          rw [writeAt_getElem]
          rcases hcond with h | h
          · rw [if_pos (by omega), if_pos hi]
          · rw [if_neg (by omega), if_neg (by rw [hdata_len]; omega)]
        · refine le_trans ?_ hlen
          rw [writeAt_length]
          omega

/-- C10.  For every call `CopyRange(src, dst, srcOffset, dstOffset,
length, bufsize)` with `srcOffset ≥ 0` the call succeeds and copies
exactly `copied = min(length, source bytes available at srcOffset)`
bytes (so an early source exhaustion still succeeds with only the
available bytes): writing to offset `dstOffset` when `dstOffset ≥ 0`,
and to offset 0 of the truncated (empty) destination when
`dstOffset < 0`; the destination bytes in the copied window equal the
source bytes at `srcOffset`, and every pre-existing destination byte
outside the window is unchanged. -/
theorem CopyRange_c10 (src dst : List Nat) (srcOffset dstOffset length bufsize : Int)
    (hsrc : 0 ≤ srcOffset) :
    ∃ out, CopyRange src dst srcOffset dstOffset length bufsize = some out ∧
      (∀ j : Nat, (j : Int) < min (max length 0) (max ((src.length : Int) - srcOffset) 0) →
        out[(if dstOffset < 0 then (0 : Int) else dstOffset).toNat + j]?
          = src[srcOffset.toNat + j]?) ∧
      (∀ i : Nat, i < (if dstOffset < 0 then [] else dst).length →
        (i < (if dstOffset < 0 then (0 : Int) else dstOffset).toNat ∨
          (if dstOffset < 0 then (0 : Int) else dstOffset).toNat +
            (min (max length 0) (max ((src.length : Int) - srcOffset) 0)).toNat ≤ i) →
        out[i]? = (if dstOffset < 0 then [] else dst)[i]?) := by
  obtain ⟨out, hout, hwin, hframe, _⟩ := copyLoopAux_spec src srcOffset
    (if dstOffset < 0 then 0 else dstOffset)
    length (if bufsize ≤ 0 then copyBufSize else bufsize)
    hsrc
    (by split <;> omega)
    (by unfold copyBufSize; split <;> omega)
    length.toNat (if dstOffset < 0 then [] else dst) 0 le_rfl (by omega)
  refine ⟨out, ?_, ?_, ?_⟩
  · rw [← hout]
    unfold CopyRange
    rfl
  · intro j hj
    have := hwin j (by omega)
    simpa using this
  · intro i hi hcond
    have := hframe i hi (by simpa using hcond)
    simpa using this

/-- C10 (witness).  The theorem applied to a concrete copy whose source
is exhausted after two bytes: the call succeeds and the first copied
byte equals the source byte at the source offset. -/
theorem CopyRange_c10_witness :
    ((CopyRange [1, 2, 3, 4, 5, 6, 7] [9, 9, 9] 5 0 10 2).getD [])[0]? = some 6 := by
  obtain ⟨out, hout, hwin, _⟩ := CopyRange_c10 [1, 2, 3, 4, 5, 6, 7] [9, 9, 9] 5 0 10 2
    (by decide)
  rw [hout]
  have h0 := hwin 0 (by decide)
  simpa using h0

end PartitionResizer
